import Mathlib

/-!
Verification development for the reference-management layer declared in
`src/git2/refs.h` (libgit2).  The repository exposes only a declarations
header; the behaviour of each routine is therefore modelled from the
specification (`spec.md`, §3–§4.5): the data model of direct/symbolic
references, the iterative-peeling resolution engine with its depth bound,
and the create/retarget/rename/delete mutation protocol over an atomic
key-value reference store.  Locking and compare-and-swap are degenerate in
this sequential embedding (the lock is always free and a CAS performed
immediately after the guarding read always succeeds), so the model keeps
the transactional order of checks — normalize/validate, kind check,
read-verify, write — and the error taxonomy of §7 exactly.
-/

namespace GitRefs

/-- Modelled from the spec: a content object identifier (`git_oid`), a
fixed-size identifier whose bytes live in the external object store.  The
type itself; well-formedness (fixed length of 20 bytes, each a byte value)
is the separate predicate `git_oid_wellformed`, since §3 requires ill-formed
candidates to be rejected at validation time only. -/
structure git_oid where
  bytes : List Nat
deriving DecidableEq, Repr

/-- Modelled from the spec: format validity of an object identifier — fixed
length, each entry an actual byte.  §4.5 create_direct: "object_id is
validated for format only, not existence in the object store". -/
def git_oid_wellformed (id : git_oid) : Bool :=
  id.bytes.length == 20 && id.bytes.all (fun b => b < 256)

/-- Modelled from the spec (§6, persisted state layout): the tagged value
persisted under one reference name — either `(Direct, object_id)` or
`(Symbolic, target_name)`. -/
inductive PersistedValue where
  | direct (id : git_oid)
  | symbolic (targetName : String)
deriving DecidableEq, Repr

/-- Modelled from the spec (§3): the in-memory Reference value object — its
own full name plus the tagged direct-or-symbolic payload.  The back
reference to the owning repository context is opaque to every operation in
the core and is omitted from the model. -/
structure Reference where
  name : String
  value : PersistedValue
deriving DecidableEq, Repr

/-- Modelled from the spec (§4.3 RefStore): the durable backing store as a
logical mapping from reference name to persisted value. -/
def Store : Type := String → Option PersistedValue

/-- Modelled from the spec (§4.3): `read(name)` on the store. -/
def Store.read (s : Store) (n : String) : Option PersistedValue := s n

/-- Modelled from the spec (§4.3): the state after an atomic write of one
key (the successful branch of `write_atomic`). -/
def Store.write (s : Store) (n : String) (v : PersistedValue) : Store :=
  fun m => if m = n then some v else s m

/-- Modelled from the spec (§4.3): the state after an atomic delete of one
key (the successful branch of `delete_atomic`). -/
def Store.erase (s : Store) (n : String) : Store :=
  fun m => if m = n then none else s m

/-- Modelled from the spec: the store holding no references at all. -/
def Store.empty : Store := fun _ => none

/-- Modelled from the spec (§4.1 NameValidator helper): splits a name into
its `/`-separated path segments, keeping empty segments so that leading,
trailing and doubled separators surface as empty segments. -/
def splitSegs : List Char → List (List Char)
  | [] => [[]]
  | c :: cs =>
      if c = '/' then [] :: splitSegs cs
      else
        match splitSegs cs with
        | [] => [[c]]
        | s :: ss => (c :: s) :: ss

/-- Modelled from the spec (§4.1 NameValidator): a character allowed inside
a reference name — printable ASCII, no control characters. -/
def validNameChar (c : Char) : Bool :=
  32 ≤ c.toNat && c.toNat < 127

/-- Modelled from the spec (§4.1 NameValidator): rejects empty names, names
with empty path segments (hence also leading/trailing/doubled separators),
control characters, segments consisting solely of refinement markers
(`.`, `..`), a trailing lock-file suffix, and names over a maximum length
(255 in this model). -/
def validName (n : String) : Bool :=
  let cs := n.data
  decide (0 < cs.length) && cs.length ≤ 255 &&
  (splitSegs cs).all (fun seg =>
    decide (0 < seg.length) && seg.all validNameChar &&
    !(seg == ['.']) && !(seg == ['.', '.'])) &&
  !(cs.reverse.take 5 == ['k', 'c', 'o', 'l', '.'])

/-- Modelled from the spec (§7): the resolution-time error taxonomy. -/
inductive ResolveError where
  | tooManyRedirects
  | danglingTarget (missing : String)
deriving DecidableEq, Repr

/-- Modelled from the spec (§7): the mutation-time error taxonomy.
`invalidName` stands for the `NameError` branch of a mutation whose name
argument fails validation, and `invalidId` for an ill-formed object
identifier; the remaining constructors are §7's `MutationError` kinds.
`concurrentModification` and `storage` are unreachable in this sequential
embedding but kept so the taxonomy is complete. -/
inductive MutationError where
  | invalidName
  | invalidId
  | alreadyExists
  | notFound
  | wrongKind
  | concurrentModification
  | storage
deriving DecidableEq, Repr

/-- Modelled from the spec (§4.4 ResolutionEngine): the fixed maximum
number of symbolic hops; the hop counter exceeding it aborts resolution. -/
def maxDepth : Nat := 5

/-- Modelled from the spec (§4.4): one layer of iterative peeling.  `fuel`
is the number of symbolic hops still allowed (initially `maxDepth`) and
`hops` the number already taken; a direct reference is terminal and is
returned with its hop count, a symbolic reference with no hops left fails
with `tooManyRedirects` (its counter would exceed `maxDepth`), a symbolic
reference whose target is not persisted fails with `danglingTarget` naming
the missing link, and otherwise the persisted target is wrapped as a
Reference and peeled further. -/
def resolveAux (s : Store) : Nat → Nat → Reference → Except ResolveError (Reference × Nat)
  | fuel, hops, r =>
    match r.value with
    | .direct _ => .ok (r, hops)
    | .symbolic targetName =>
      match fuel with
      | 0 => .error .tooManyRedirects
      | fuel' + 1 =>
        match s.read targetName with
        | none => .error (.danglingTarget targetName)
        | some v => resolveAux s fuel' (hops + 1) ⟨targetName, v⟩

/-- Modelled from the spec (§4.4, missing implementation of
`git_reference_resolve`): iteratively peels a symbolic reference to its
terminal direct reference, with the hop counter starting at 0 and the
depth bound `maxDepth`; on success returns the terminal direct reference
together with the number of symbolic hops taken.  Resolution takes the
store purely as input: it never mutates storage. -/
def git_reference_resolve (s : Store) (r : Reference) : Except ResolveError (Reference × Nat) :=
  resolveAux s maxDepth 0 r

/-- Modelled from the spec (§4.5, missing implementation of
`git_reference_create_symbolic`): validate both names, fail with
`alreadyExists` when the name is already bound (expected_previous must be
absent), otherwise persist the symbolic value and return the new in-memory
snapshot; the target is validated but not required to currently resolve. -/
def git_reference_create_symbolic (s : Store) (name targetName : String) :
    Except MutationError (Reference × Store) :=
  if !validName name then .error .invalidName
  else if !validName targetName then .error .invalidName
  else
    match s.read name with
    | some _ => .error .alreadyExists
    | none => .ok (⟨name, .symbolic targetName⟩, s.write name (.symbolic targetName))

/-- Modelled from the spec (§4.5, missing implementation of
`git_reference_create_oid`, the spec's create_direct): validate the name
and the identifier's format, fail with `alreadyExists` when the name is
already bound, otherwise persist the direct value and return the new
in-memory snapshot. -/
def git_reference_create_oid (s : Store) (name : String) (id : git_oid) :
    Except MutationError (Reference × Store) :=
  if !validName name then .error .invalidName
  else if !git_oid_wellformed id then .error .invalidId
  else
    match s.read name with
    | some _ => .error .alreadyExists
    | none => .ok (⟨name, .direct id⟩, s.write name (.direct id))

/-- Modelled from the spec (§4.5, missing implementation of
`git_reference_set_target`): fails with `wrongKind` when the reference is
not symbolic (a check on the in-memory snapshot, made before any storage
access), validates the new target name, fails with `notFound` when the
reference's name is no longer persisted, and otherwise atomically replaces
the persisted target name, returning the updated snapshot. -/
def git_reference_set_target (s : Store) (r : Reference) (targetName : String) :
    Except MutationError (Reference × Store) :=
  match r.value with
  | .direct _ => .error .wrongKind
  | .symbolic _ =>
    if !validName targetName then .error .invalidName
    else
      match s.read r.name with
      | none => .error .notFound
      | some _ => .ok (⟨r.name, .symbolic targetName⟩, s.write r.name (.symbolic targetName))

/-- Modelled from the spec (§4.5, missing implementation of
`git_reference_set_oid`): fails with `wrongKind` when the reference is not
direct (a check on the in-memory snapshot, made before any storage
access), fails with `notFound` when the reference's name is no longer
persisted, and otherwise atomically replaces the persisted identifier,
returning the updated snapshot. -/
def git_reference_set_oid (s : Store) (r : Reference) (id : git_oid) :
    Except MutationError (Reference × Store) :=
  match r.value with
  | .symbolic _ => .error .wrongKind
  | .direct _ =>
    match s.read r.name with
    | none => .error .notFound
    | some _ => .ok (⟨r.name, .direct id⟩, s.write r.name (.direct id))

/-- Modelled from the spec (§4.5, missing implementation of
`git_reference_rename`): reads the current persisted value of the old name
(failing with `notFound` when absent), validates the new name, fails with
`alreadyExists` when a reference already exists under the new name, and
otherwise performs delete-old plus create-new, moving the persisted value
to the new name. -/
def git_reference_rename (s : Store) (r : Reference) (newName : String) :
    Except MutationError (Reference × Store) :=
  match s.read r.name with
  | none => .error .notFound
  | some v =>
    if !validName newName then .error .invalidName
    else
      match s.read newName with
      | some _ => .error .alreadyExists
      | none => .ok (⟨newName, v⟩, (s.erase r.name).write newName v)

/-- Modelled from the spec (§4.5, missing implementation of
`git_reference_delete`): removes the persisted entry, failing with
`notFound` when the reference's name is no longer persisted. -/
def git_reference_delete (s : Store) (r : Reference) : Except MutationError Store :=
  match s.read r.name with
  | none => .error .notFound
  | some _ => .ok (s.erase r.name)

/-- Modelled from the header contract of `git_reference_oid` (refs.h:74–82):
the OID pointed to by a reference, available only when the reference is
direct, `none` (NULL) otherwise. -/
def git_reference_oid (r : Reference) : Option git_oid :=
  match r.value with
  | .direct id => some id
  | .symbolic _ => none

/-- Modelled from the header contract of `git_reference_target`
(refs.h:84–92): the full name of the reference pointed to by this
reference, available only when the reference is symbolic, `none` (NULL)
otherwise. -/
def git_reference_target (r : Reference) : Option String :=
  match r.value with
  | .direct _ => none
  | .symbolic targetName => some targetName

/-- Modelled from the header (types.h via refs.h:94–102): the type tag of a
reference, either direct (`GIT_REF_OID`) or symbolic
(`GIT_REF_SYMBOLIC`). -/
inductive git_rtype where
  | GIT_REF_OID
  | GIT_REF_SYMBOLIC
deriving DecidableEq, Repr

/-- Modelled from the header contract of `git_reference_type`
(refs.h:94–102): the tag of the reference's variant. -/
def git_reference_type (r : Reference) : git_rtype :=
  match r.value with
  | .direct _ => .GIT_REF_OID
  | .symbolic _ => .GIT_REF_SYMBOLIC

/-- Reading a name back as an in-memory Reference snapshot: the persisted
value, when present, wrapped with its name (spec §2, control flow). -/
def readRef (s : Store) (n : String) : Option Reference :=
  (s.read n).map (fun v => ⟨n, v⟩)

end GitRefs

namespace GitRefs

lemma Store.read_write_self (s : Store) (n : String) (v : PersistedValue) :
    (s.write n v).read n = some v := by
  simp [Store.read, Store.write]

lemma Store.read_write_of_ne (s : Store) {m n : String} (v : PersistedValue)
    (h : m ≠ n) : (s.write n v).read m = s.read m := by
  simp [Store.read, Store.write, h]

lemma Store.read_erase_self (s : Store) (n : String) :
    (s.erase n).read n = none := by
  simp [Store.read, Store.erase]

lemma Store.read_erase_of_ne (s : Store) {m n : String} (h : m ≠ n) :
    (s.erase n).read m = s.read m := by
  simp [Store.read, Store.erase, h]

lemma create_oid_ok_elim {s : Store} {name : String} {id : git_oid}
    {r : Reference} {s' : Store}
    (h : git_reference_create_oid s name id = .ok (r, s')) :
    validName name = true ∧ git_oid_wellformed id = true ∧ s.read name = none ∧
    r = ⟨name, .direct id⟩ ∧ s' = s.write name (.direct id) := by
  cases hv : validName name with
  | false => simp [git_reference_create_oid, hv] at h
  | true =>
    cases hw : git_oid_wellformed id with
    | false => simp [git_reference_create_oid, hv, hw] at h
    | true =>
      cases hr : s.read name with
      | some v => simp [git_reference_create_oid, hv, hw, hr] at h
      | none =>
        simp [git_reference_create_oid, hv, hw, hr] at h
        exact ⟨rfl, rfl, rfl, h.1.symm, h.2.symm⟩

lemma delete_ok_elim {s : Store} {r : Reference} {s' : Store}
    (h : git_reference_delete s r = .ok s') :
    (∃ w, s.read r.name = some w) ∧ s' = s.erase r.name := by
  cases hr : s.read r.name with
  | none => simp [git_reference_delete, hr] at h
  | some w =>
    simp [git_reference_delete, hr] at h
    exact ⟨⟨w, rfl⟩, h.symm⟩

end GitRefs

namespace GitRefs

/-- A finite set of names each of which is persisted as a symbolic
reference whose target stays inside the set: the closure condition
satisfied by every symbolic cycle (spec §9, cyclic chains in the naming
graph). -/
def symClosed (s : Store) (C : List String) : Bool :=
  C.all (fun n =>
    match s.read n with
    | some (PersistedValue.symbolic t) => decide (t ∈ C)
    | _ => false)

lemma symClosed_elim {s : Store} {C : List String} (hc : symClosed s C = true)
    {t : String} (ht : t ∈ C) :
    ∃ t', s.read t = some (.symbolic t') ∧ t' ∈ C := by
  have h := (List.all_eq_true.mp hc) t ht
  cases hr : s.read t with
  | none => rw [hr] at h; simp at h
  | some v =>
    cases v with
    | direct id => rw [hr] at h; simp at h
    | symbolic t' =>
      rw [hr] at h
      exact ⟨t', rfl, of_decide_eq_true h⟩

lemma resolveAux_cycle {s : Store} {C : List String} (hc : symClosed s C = true) :
    ∀ (fuel hops : Nat) (r : Reference) (t : String),
      r.value = .symbolic t → t ∈ C →
      resolveAux s fuel hops r = .error .tooManyRedirects := by
  intro fuel
  induction fuel with
  | zero =>
    intro hops r t hr ht
    obtain ⟨nm, v⟩ := r
    dsimp only at hr
    subst hr
    rfl
  | succ fuel ih =>
    intro hops r t hr ht
    obtain ⟨nm, v⟩ := r
    dsimp only at hr
    subst hr
    obtain ⟨t', hread, ht'⟩ := symClosed_elim hc ht
    have hstep : resolveAux s (fuel + 1) hops ⟨nm, PersistedValue.symbolic t⟩ =
        match s.read t with
        | none => .error (.danglingTarget t)
        | some v => resolveAux s fuel (hops + 1) ⟨t, v⟩ := rfl
    rw [hstep, hread]
    exact ih (hops + 1) ⟨t, .symbolic t'⟩ t' rfl ht'

/-- C1: resolution always terminates; in particular, whenever the symbolic
chain out of a reference stays inside a set of names that is closed under
symbolic redirection (as any cycle such as A→B→A is), resolution fails with
`tooManyRedirects` once the hop counter exceeds the fixed depth bound
`maxDepth = 5`, rather than looping forever. -/
theorem resolve_cycle_tooManyRedirects (s : Store) (r : Reference)
    (t : String) (C : List String)
    (hr : r.value = .symbolic t) (ht : t ∈ C) (hc : symClosed s C = true) :
    git_reference_resolve s r = .error .tooManyRedirects :=
  resolveAux_cycle hc maxDepth 0 r t hr ht

/-- Store persisting the two-element symbolic cycle refs/a → refs/b → refs/a. -/
def cycStore : Store :=
  (Store.empty.write "refs/a" (.symbolic "refs/b")).write "refs/b" (.symbolic "refs/a")

/-- Witness for C1 at the concrete cycle A→B→A. -/
theorem resolve_cycle_tooManyRedirects_witness :
    git_reference_resolve cycStore ⟨"refs/a", .symbolic "refs/b"⟩ =
      .error .tooManyRedirects :=
  resolve_cycle_tooManyRedirects cycStore ⟨"refs/a", .symbolic "refs/b"⟩
    "refs/b" ["refs/a", "refs/b"] rfl (by decide) (by decide)

/-- C8: a direct reference is already terminal — resolution returns it
immediately, with a hop count of zero; the store plays no role and (being
taken purely as input) is never mutated by resolution. -/
theorem resolve_direct_immediate (s : Store) (n : String) (id : git_oid) :
    git_reference_resolve s ⟨n, .direct id⟩ = .ok (⟨n, .direct id⟩, 0) := rfl

/-- C10: the accessors are total and kind-discriminating — `git_reference_oid`
yields a value exactly on direct references (`GIT_REF_OID`) and `none`
(NULL) otherwise, and `git_reference_target` yields a value exactly on
symbolic references (`GIT_REF_SYMBOLIC`) and `none` (NULL) otherwise. -/
theorem accessors_kind_discriminating (r : Reference) :
    (git_reference_oid r ≠ none ↔ git_reference_type r = .GIT_REF_OID) ∧
    (git_reference_target r ≠ none ↔ git_reference_type r = .GIT_REF_SYMBOLIC) := by
  cases r with
  | mk n v =>
    cases v <;>
      simp [git_reference_oid, git_reference_target, git_reference_type]

end GitRefs

namespace GitRefs

lemma resolveAux_dangling (s : Store) :
    ∀ (k : Nat) (names : Nat → String) (fuel hops : Nat) (r : Reference),
      r.value = .symbolic (names 0) →
      (∀ i, i < k → s.read (names i) = some (.symbolic (names (i + 1)))) →
      s.read (names k) = none →
      k < fuel →
      resolveAux s fuel hops r = .error (.danglingTarget (names k)) := by
  intro k
  induction k with
  | zero =>
    intro names fuel hops r hr _hchain hmiss hfuel
    obtain ⟨nm, v⟩ := r
    dsimp only at hr
    subst hr
    obtain ⟨fuel', rfl⟩ := Nat.exists_eq_add_of_lt hfuel
    have hstep : resolveAux s (0 + fuel' + 1) hops ⟨nm, PersistedValue.symbolic (names 0)⟩ =
        match s.read (names 0) with
        | none => .error (.danglingTarget (names 0))
        | some v => resolveAux s (0 + fuel') (hops + 1) ⟨names 0, v⟩ := rfl
    rw [hstep, hmiss]
  | succ k ih =>
    intro names fuel hops r hr hchain hmiss hfuel
    obtain ⟨nm, v⟩ := r
    dsimp only at hr
    subst hr
    obtain ⟨fuel', rfl⟩ := Nat.exists_eq_add_of_lt hfuel
    have hstep : resolveAux s (k + 1 + fuel' + 1) hops ⟨nm, PersistedValue.symbolic (names 0)⟩ =
        match s.read (names 0) with
        | none => .error (.danglingTarget (names 0))
        | some v => resolveAux s (k + 1 + fuel') (hops + 1) ⟨names 0, v⟩ := rfl
    rw [hstep, hchain 0 (Nat.succ_pos k)]
    have := ih (fun i => names (i + 1)) (k + 1 + fuel') (hops + 1)
      ⟨names 0, .symbolic (names 1)⟩ rfl
      (fun i hi => hchain (i + 1) (Nat.succ_lt_succ hi)) hmiss
      (by omega)
    exact this

/-- Amended C3: when the symbolic chain out of a reference reaches a target
name with no persisted value within the depth bound (the missing link is
found after at most `maxDepth` hops), resolution fails with
`danglingTarget` naming exactly that missing link; and creating a symbolic
reference whose target is dangling itself succeeds. -/
theorem resolve_dangling_reports_missing (s : Store) (r : Reference)
    (names : Nat → String) (k : Nat) (nm tg : String)
    (hk : k < maxDepth)
    (hr : r.value = .symbolic (names 0))
    (hchain : ∀ i, i < k → s.read (names i) = some (.symbolic (names (i + 1))))
    (hmiss : s.read (names k) = none)
    (hnm : validName nm = true) (htg : validName tg = true)
    (hfree : s.read nm = none) :
    git_reference_resolve s r = .error (.danglingTarget (names k)) ∧
    git_reference_create_symbolic s nm tg =
      .ok (⟨nm, .symbolic tg⟩, s.write nm (.symbolic tg)) := by
  constructor
  · exact resolveAux_dangling s k names maxDepth 0 r hr hchain hmiss hk
  · simp [git_reference_create_symbolic, hnm, htg, hfree]

/-- Store persisting the one-link chain refs/one → refs/two, with refs/two
absent. -/
def dangleStoreW : Store := Store.empty.write "refs/one" (.symbolic "refs/two")

/-- Witness for the amended C3 at a concrete dangling chain: resolving a
symbolic reference to refs/one reports the missing link refs/two, and
creating a fresh symbolic reference to an absent target succeeds. -/
theorem resolve_dangling_reports_missing_witness :
    git_reference_resolve dangleStoreW ⟨"refs/start", .symbolic "refs/one"⟩ =
      .error (.danglingTarget "refs/two") ∧
    git_reference_create_symbolic dangleStoreW "refs/new" "refs/gone" =
      .ok (⟨"refs/new", .symbolic "refs/gone"⟩,
           dangleStoreW.write "refs/new" (.symbolic "refs/gone")) :=
  resolve_dangling_reports_missing dangleStoreW ⟨"refs/start", .symbolic "refs/one"⟩
    (fun i => if i = 0 then "refs/one" else "refs/two") 1 "refs/new" "refs/gone"
    (by decide) rfl
    (by
      intro i hi
      have h0 : i = 0 := Nat.lt_one_iff.mp hi
      subst h0
      decide)
    (by decide) (by decide) (by decide) (by decide)

/-- Store persisting the six-link symbolic chain d1 → d2 → d3 → d4 → d5 → d6
with d6 absent: the missing link lies beyond the depth bound. -/
def dangleStore6 : Store :=
  ((((Store.empty.write "refs/d1" (.symbolic "refs/d2")).write
      "refs/d2" (.symbolic "refs/d3")).write
      "refs/d3" (.symbolic "refs/d4")).write
      "refs/d4" (.symbolic "refs/d5")).write
      "refs/d5" (.symbolic "refs/d6")

/-- Counterexample to C3 as stated: the chain out of this symbolic
reference has a target name with no persisted value (refs/d6, at hop 6),
yet resolution fails with `tooManyRedirects`, not with
`danglingTarget "refs/d6"`, because the missing link lies beyond the depth
bound. -/
theorem resolve_dangling_beyond_bound :
    dangleStore6.read "refs/d6" = none ∧
    git_reference_resolve dangleStore6 ⟨"refs/d0", .symbolic "refs/d1"⟩ =
      .error .tooManyRedirects ∧
    git_reference_resolve dangleStore6 ⟨"refs/d0", .symbolic "refs/d1"⟩ ≠
      .error (.danglingTarget "refs/d6") := by
  refine ⟨rfl, rfl, ?_⟩
  intro h
  have h2 := Except.error.inj
    ((rfl : git_reference_resolve dangleStore6 ⟨"refs/d0", .symbolic "refs/d1"⟩ =
        Except.error ResolveError.tooManyRedirects).symm.trans h)
  exact absurd h2 (by decide)

end GitRefs

namespace GitRefs

/-- C2: round-trip — whenever `git_reference_create_oid` (the spec's
create_direct) succeeds for a name and identifier, reading that name back
yields a direct reference holding exactly that identifier, and resolving
the read-back reference returns it unchanged, in zero hops, with exactly
that identifier as its OID. -/
theorem create_oid_roundtrip (s : Store) (name : String) (id : git_oid)
    (r : Reference) (s' : Store)
    (h : git_reference_create_oid s name id = .ok (r, s')) :
    readRef s' name = some ⟨name, .direct id⟩ ∧
    git_reference_resolve s' ⟨name, .direct id⟩ = .ok (⟨name, .direct id⟩, 0) ∧
    git_reference_oid ⟨name, .direct id⟩ = some id := by
  obtain ⟨-, -, -, -, hs'⟩ := create_oid_ok_elim h
  subst hs'
  refine ⟨?_, rfl, rfl⟩
  simp [readRef, Store.read_write_self]

/-- The all-zero 20-byte object identifier, used as a concrete input. -/
def oidZ : git_oid := ⟨List.replicate 20 0⟩

/-- A second concrete 20-byte object identifier, distinct from `oidZ`. -/
def oidOne : git_oid := ⟨1 :: List.replicate 19 0⟩

/-- Witness for C2 at a concrete creation into the empty store. -/
theorem create_oid_roundtrip_witness :
    readRef (Store.empty.write "refs/heads/master" (.direct oidZ)) "refs/heads/master" =
      some ⟨"refs/heads/master", .direct oidZ⟩ ∧
    git_reference_resolve (Store.empty.write "refs/heads/master" (.direct oidZ))
        ⟨"refs/heads/master", .direct oidZ⟩ =
      .ok (⟨"refs/heads/master", .direct oidZ⟩, 0) ∧
    git_reference_oid ⟨"refs/heads/master", .direct oidZ⟩ = some oidZ :=
  create_oid_roundtrip Store.empty "refs/heads/master" oidZ
    ⟨"refs/heads/master", .direct oidZ⟩
    (Store.empty.write "refs/heads/master" (.direct oidZ)) rfl

/-- C4: creation is unique — after a `git_reference_create_oid` has
succeeded under a name, a second `git_reference_create_oid` under the same
name (with any well-formed identifier) fails with `alreadyExists`, and the
persisted value under that name still holds the first identifier: the
failed attempt returns only the error and leaves no modified store. -/
theorem create_oid_unique (s : Store) (name : String) (id1 id2 : git_oid)
    (r : Reference) (s' : Store)
    (hid2 : git_oid_wellformed id2 = true)
    (h : git_reference_create_oid s name id1 = .ok (r, s')) :
    git_reference_create_oid s' name id2 = .error .alreadyExists ∧
    s'.read name = some (.direct id1) := by
  obtain ⟨hn, -, -, -, hs'⟩ := create_oid_ok_elim h
  subst hs'
  have hrd : (s.write name (.direct id1)).read name = some (.direct id1) :=
    Store.read_write_self s name (.direct id1)
  exact ⟨by simp [git_reference_create_oid, hn, hid2, hrd], hrd⟩

/-- Witness for C4: creating refs/x twice in a row from the empty store. -/
theorem create_oid_unique_witness :
    git_reference_create_oid (Store.empty.write "refs/x" (.direct oidZ)) "refs/x" oidOne =
      .error .alreadyExists ∧
    (Store.empty.write "refs/x" (.direct oidZ)).read "refs/x" = some (.direct oidZ) :=
  create_oid_unique Store.empty "refs/x" oidZ oidOne ⟨"refs/x", .direct oidZ⟩
    (Store.empty.write "refs/x" (.direct oidZ)) (by decide) rfl

/-- C5: rename postcondition — for a reference whose in-memory value agrees
with its persisted value, a successful `git_reference_rename` leaves the
old name absent and the new name holding exactly the value the reference
held before the rename; the returned state populates the new name and not
the old one (the two names are necessarily distinct), so both names are
never simultaneously populated with that reference once the call has
returned. -/
theorem rename_moves_value (s : Store) (r : Reference) (newName : String)
    (r' : Reference) (s' : Store)
    (hcur : s.read r.name = some r.value)
    (h : git_reference_rename s r newName = .ok (r', s')) :
    s'.read r.name = none ∧ s'.read newName = some r.value ∧
    r' = ⟨newName, r.value⟩ ∧ r.name ≠ newName := by
  cases hvn : validName newName with
  | false => simp [git_reference_rename, hcur, hvn] at h
  | true =>
    cases hrd : s.read newName with
    | some w => simp [git_reference_rename, hcur, hvn, hrd] at h
    | none =>
      simp [git_reference_rename, hcur, hvn, hrd] at h
      obtain ⟨hr', hs'⟩ := h
      have hne : r.name ≠ newName := by
        intro he
        rw [he, hrd] at hcur
        exact Option.noConfusion hcur
      subst hs'
      refine ⟨?_, ?_, hr'.symm, hne⟩
      · rw [Store.read_write_of_ne _ _ hne, Store.read_erase_self]
      · exact Store.read_write_self ..

/-- Witness for C5: renaming refs/old to refs/new. -/
theorem rename_moves_value_witness :
    (((Store.empty.write "refs/old" (.direct oidZ)).erase "refs/old").write
        "refs/new" (.direct oidZ)).read "refs/old" = none ∧
    (((Store.empty.write "refs/old" (.direct oidZ)).erase "refs/old").write
        "refs/new" (.direct oidZ)).read "refs/new" = some (.direct oidZ) ∧
    (⟨"refs/new", .direct oidZ⟩ : Reference) = ⟨"refs/new", .direct oidZ⟩ ∧
    "refs/old" ≠ "refs/new" := by
  have h := rename_moves_value (Store.empty.write "refs/old" (.direct oidZ))
    ⟨"refs/old", .direct oidZ⟩ "refs/new" ⟨"refs/new", .direct oidZ⟩
    (((Store.empty.write "refs/old" (.direct oidZ)).erase "refs/old").write
        "refs/new" (.direct oidZ)) rfl rfl
  exact h

end GitRefs

namespace GitRefs

/-- Store persisting the single direct reference refs/x. -/
def c6Store : Store := Store.empty.write "refs/x" (.direct oidZ)

/-- The in-memory snapshot of the direct reference refs/x. -/
def c6Ref : Reference := ⟨"refs/x", .direct oidZ⟩

/-- Counterexample to C6 as stated: after deleting the direct reference
refs/x, a `git_reference_set_target` addressed at that same logical name
fails with `wrongKind` (the kind check on the in-memory snapshot fires
before storage is consulted), not with `notFound`. -/
theorem delete_then_set_target_wrongKind :
    git_reference_delete c6Store c6Ref = .ok (c6Store.erase "refs/x") ∧
    git_reference_set_target (c6Store.erase "refs/x") c6Ref "refs/y" =
      .error .wrongKind ∧
    git_reference_set_target (c6Store.erase "refs/x") c6Ref "refs/y" ≠
      .error .notFound := by
  refine ⟨rfl, rfl, ?_⟩
  intro h
  have h2 := Except.error.inj
    ((rfl : git_reference_set_target (c6Store.erase "refs/x") c6Ref "refs/y" =
        Except.error MutationError.wrongKind).symm.trans h)
  exact absurd h2 (by decide)

/-- Amended C6: after a successful `git_reference_delete`, every further
mutation addressed at the deleted logical name and matching the stale
snapshot's kind fails with `notFound` — `git_reference_rename` always,
`git_reference_set_oid` on a deleted direct reference, and
`git_reference_set_target` (with a valid target name) on a deleted
symbolic reference — while a kind-mismatched `set_target`/`set_oid` on the
deleted reference fails with `wrongKind` instead. -/
theorem delete_then_mutate_fails (s : Store) (r : Reference) (s' : Store)
    (hdel : git_reference_delete s r = .ok s') :
    (∀ n, git_reference_rename s' r n = .error .notFound) ∧
    (∀ id, git_reference_type r = .GIT_REF_OID →
      git_reference_set_oid s' r id = .error .notFound) ∧
    (∀ t, git_reference_type r = .GIT_REF_SYMBOLIC → validName t = true →
      git_reference_set_target s' r t = .error .notFound) ∧
    (∀ t, git_reference_type r = .GIT_REF_OID →
      git_reference_set_target s' r t = .error .wrongKind) ∧
    (∀ id, git_reference_type r = .GIT_REF_SYMBOLIC →
      git_reference_set_oid s' r id = .error .wrongKind) := by
  obtain ⟨⟨w, hw⟩, hs'⟩ := delete_ok_elim hdel
  subst hs'
  obtain ⟨nm, v⟩ := r
  have hnone : (s.erase nm).read nm = none := Store.read_erase_self s nm
  refine ⟨?_, ?_, ?_, ?_, ?_⟩
  · intro n
    simp [git_reference_rename, hnone]
  · intro id htype
    cases v with
    | symbolic t0 => simp [git_reference_type] at htype
    | direct i0 => simp [git_reference_set_oid, hnone]
  · intro t htype hvt
    cases v with
    | direct i0 => simp [git_reference_type] at htype
    | symbolic t0 => simp [git_reference_set_target, hvt, hnone]
  · intro t htype
    cases v with
    | symbolic t0 => simp [git_reference_type] at htype
    | direct i0 => simp [git_reference_set_target]
  · intro id htype
    cases v with
    | direct i0 => simp [git_reference_type] at htype
    | symbolic t0 => simp [git_reference_set_oid]

/-- Witness for the amended C6 at the deleted direct reference refs/x. -/
theorem delete_then_mutate_fails_witness :
    git_reference_rename (c6Store.erase "refs/x") c6Ref "refs/n" =
      .error .notFound ∧
    git_reference_set_oid (c6Store.erase "refs/x") c6Ref oidOne =
      .error .notFound ∧
    git_reference_set_target (c6Store.erase "refs/x") c6Ref "refs/y" =
      .error .wrongKind := by
  have h := delete_then_mutate_fails c6Store c6Ref (c6Store.erase "refs/x") rfl
  exact ⟨h.1 "refs/n", h.2.1 oidOne rfl, h.2.2.2.1 "refs/y" rfl⟩

/-- The in-memory snapshot of a symbolic reference whose own name is not
persisted. -/
def c7Ref : Reference := ⟨"refs/gone", .symbolic "refs/a"⟩

/-- Counterexample to C7 as stated: this reference is symbolic, and the
new target name refs/b is valid, yet `git_reference_set_target` does not
replace the target — it fails with `notFound`, because the reference's
name is no longer persisted. -/
theorem set_target_unpersisted_notFound :
    validName "refs/b" = true ∧
    git_reference_type c7Ref = .GIT_REF_SYMBOLIC ∧
    git_reference_set_target Store.empty c7Ref "refs/b" = .error .notFound :=
  ⟨by decide, rfl, rfl⟩

/-- Amended C7: the retarget operations are kind-checked —
`git_reference_set_target` fails with `wrongKind` on a non-symbolic
reference and `git_reference_set_oid` fails with `wrongKind` on a
non-direct reference; when the kind matches and the reference's name is
still persisted they atomically replace the target name (given a valid
new name) respectively the identifier; when the kind matches but the name
is no longer persisted they fail with `notFound`. -/
theorem set_target_set_oid_kind_checked (s : Store) (r : Reference)
    (t : String) (id : git_oid) :
    (git_reference_type r = .GIT_REF_OID →
      git_reference_set_target s r t = .error .wrongKind) ∧
    (git_reference_type r = .GIT_REF_SYMBOLIC →
      git_reference_set_oid s r id = .error .wrongKind) ∧
    (git_reference_type r = .GIT_REF_SYMBOLIC → validName t = true →
      ∀ w, s.read r.name = some w →
      git_reference_set_target s r t =
        .ok (⟨r.name, .symbolic t⟩, s.write r.name (.symbolic t))) ∧
    (git_reference_type r = .GIT_REF_OID →
      ∀ w, s.read r.name = some w →
      git_reference_set_oid s r id =
        .ok (⟨r.name, .direct id⟩, s.write r.name (.direct id))) ∧
    (git_reference_type r = .GIT_REF_SYMBOLIC → validName t = true →
      s.read r.name = none →
      git_reference_set_target s r t = .error .notFound) ∧
    (git_reference_type r = .GIT_REF_OID →
      s.read r.name = none →
      git_reference_set_oid s r id = .error .notFound) := by
  obtain ⟨nm, v⟩ := r
  refine ⟨?_, ?_, ?_, ?_, ?_, ?_⟩
  · intro htype
    cases v with
    | symbolic t0 => simp [git_reference_type] at htype
    | direct i0 => simp [git_reference_set_target]
  · intro htype
    cases v with
    | direct i0 => simp [git_reference_type] at htype
    | symbolic t0 => simp [git_reference_set_oid]
  · intro htype hvt w hw
    cases v with
    | direct i0 => simp [git_reference_type] at htype
    | symbolic t0 => simp [git_reference_set_target, hvt, hw]
  · intro htype w hw
    cases v with
    | symbolic t0 => simp [git_reference_type] at htype
    | direct i0 => simp [git_reference_set_oid, hw]
  · intro htype hvt hnone
    cases v with
    | direct i0 => simp [git_reference_type] at htype
    | symbolic t0 => simp [git_reference_set_target, hvt, hnone]
  · intro htype hnone
    cases v with
    | symbolic t0 => simp [git_reference_type] at htype
    | direct i0 => simp [git_reference_set_oid, hnone]

/-- Store persisting one symbolic reference refs/sym and one direct
reference refs/dir. -/
def c7Store : Store :=
  (Store.empty.write "refs/sym" (.symbolic "refs/a")).write "refs/dir" (.direct oidZ)

/-- Witness for the amended C7, covering all four kind combinations on
concrete references. -/
theorem set_target_set_oid_kind_checked_witness :
    git_reference_set_target c7Store ⟨"refs/dir", .direct oidZ⟩ "refs/b" =
      .error .wrongKind ∧
    git_reference_set_oid c7Store ⟨"refs/sym", .symbolic "refs/a"⟩ oidOne =
      .error .wrongKind ∧
    git_reference_set_target c7Store ⟨"refs/sym", .symbolic "refs/a"⟩ "refs/b" =
      .ok (⟨"refs/sym", .symbolic "refs/b"⟩,
           c7Store.write "refs/sym" (.symbolic "refs/b")) ∧
    git_reference_set_oid c7Store ⟨"refs/dir", .direct oidZ⟩ oidOne =
      .ok (⟨"refs/dir", .direct oidOne⟩,
           c7Store.write "refs/dir" (.direct oidOne)) := by
  have hd := set_target_set_oid_kind_checked c7Store ⟨"refs/dir", .direct oidZ⟩
    "refs/b" oidOne
  have hs := set_target_set_oid_kind_checked c7Store ⟨"refs/sym", .symbolic "refs/a"⟩
    "refs/b" oidOne
  refine ⟨hd.1 rfl, hs.2.1 rfl, ?_, ?_⟩
  · exact hs.2.2.1 rfl (by decide) (.symbolic "refs/a") rfl
  · exact hd.2.2.2.1 rfl (.direct oidZ) rfl

end GitRefs
